import Mathlib

/-!
Verification of `process_city_shapes.py` (SolarPanelDataWrangler).

The Python source is embedded shallowly:

* real (`float`) arithmetic is modelled by `ℝ`;
* Python `int(x)` (truncation toward zero) is modelled by `pytrunc`;
* Python exceptions (`ZeroDivisionError` from `1 / cos`, `ValueError` from
  `math.log` on a non-positive argument, `AssertionError` from `assert`) are
  modelled by `Option`/error results;
* numpy array operations are modelled on nested lists, keeping numpy's
  rectangularity requirement and its `apply_along_axis` slicing semantics;
* the persistence collaborator (`solardb`) is modelled by an explicit state
  and a trace of the calls issued to it.
-/

open scoped Classical

/-- Python `int(x)` applied to a real number: truncation toward zero
(floor for non-negative input, ceiling for negative input). -/
noncomputable def pytrunc (x : ℝ) : ℤ :=
  if 0 ≤ x then ⌊x⌋ else ⌈x⌉

theorem pytrunc_of_nonneg {x : ℝ} (h : 0 ≤ x) : pytrunc x = ⌊x⌋ :=
  if_pos h

theorem pytrunc_lt_add_one (x : ℝ) : (pytrunc x : ℝ) < x + 1 := by
  unfold pytrunc
  split
  · have := Int.floor_le x
    linarith
  · have := Int.ceil_lt_add_one x
    linarith

theorem sub_one_lt_pytrunc (x : ℝ) : x - 1 < (pytrunc x : ℝ) := by
  unfold pytrunc
  split
  · have := Int.sub_one_lt_floor x
    linarith
  · have := Int.le_ceil x
    linarith

/-- Embedding of `deg2num` (process_city_shapes.py, lines 18-35): slippy-tile
forward projection.  `lat_rad = radians(lat_deg)`, `n = 2.0 ** zoom`,
`column = int((lon + 180) / 360 * n)`,
`row = int((1 - log(tan(lat_rad) + 1/cos(lat_rad)) / pi) / 2 * n)`.
Under exact real semantics the computation raises when `cos lat_rad = 0`
(`ZeroDivisionError` in `1 / cos`) or when `tan lat_rad + 1 / cos lat_rad ≤ 0`
(`ValueError: math domain error` from `math.log`); both are modelled by
`none`. -/
noncomputable def deg2num (lon_deg lat_deg : ℝ) (zoom : ℕ) : Option (ℤ × ℤ) :=
  if Real.cos (lat_deg * (Real.pi / 180)) = 0 ∨
      Real.tan (lat_deg * (Real.pi / 180)) +
        1 / Real.cos (lat_deg * (Real.pi / 180)) ≤ 0 then
    none
  else
    some (pytrunc ((lon_deg + 180) / 360 * 2 ^ zoom),
      pytrunc ((1 - Real.log (Real.tan (lat_deg * (Real.pi / 180)) +
        1 / Real.cos (lat_deg * (Real.pi / 180))) / Real.pi) / 2 * 2 ^ zoom))

/-- Embedding of `num2deg` (process_city_shapes.py, lines 38-59): inverse
slippy-tile projection.  If `center` is true, `0.5` is added to the column and
the row first; then `lon = column / n * 360 - 180` and
`lat = degrees(atan(sinh(pi * (1 - 2 * row / n))))`. -/
noncomputable def num2deg (column row : ℝ) (zoom : ℕ) (center : Bool) : ℝ × ℝ :=
  ((if center then column + 1 / 2 else column) / 2 ^ zoom * 360 - 180,
   Real.arctan (Real.sinh (Real.pi *
     (1 - 2 * (if center then row + 1 / 2 else row) / 2 ^ zoom))) * (180 / Real.pi))

/-- The Mercator vertical ordinate of a latitude given in degrees:
`arsinh (tan lat_rad)`.  At zoom `z` the slippy grid cuts this ordinate
(over its Web-Mercator range `[-π, π]`) into `2^z` equal tile rows, so one
tile height is `2 * π / 2^z` in this coordinate.  It is the quantity whose
logarithmic form `log (tan lat_rad + sec lat_rad)` appears in `deg2num`. -/
noncomputable def merc_ordinate (lat_deg : ℝ) : ℝ :=
  Real.arsinh (Real.tan (lat_deg * (Real.pi / 180)))

theorem deg2num_eq_some (lon lat : ℝ) (z : ℕ) (h₃ : -90 < lat) (h₄ : lat < 90) :
    deg2num lon lat z = some (pytrunc ((lon + 180) / 360 * 2 ^ z),
      pytrunc ((1 - merc_ordinate lat / Real.pi) / 2 * 2 ^ z)) := by
  have hp : (0:ℝ) < Real.pi := Real.pi_pos
  set θ : ℝ := lat * (Real.pi / 180) with hθ
  have hθu : θ < Real.pi / 2 := by
    have h := mul_lt_mul_of_pos_right h₄ (show (0:ℝ) < Real.pi / 180 by positivity)
    calc θ < 90 * (Real.pi / 180) := h
    _ = Real.pi / 2 := by ring
  have hθl : -(Real.pi / 2) < θ := by
    have h := mul_lt_mul_of_pos_right h₃ (show (0:ℝ) < Real.pi / 180 by positivity)
    calc -(Real.pi / 2) = -90 * (Real.pi / 180) := by ring
    _ < θ := h
  have hcos : 0 < Real.cos θ := Real.cos_pos_of_mem_Ioo ⟨hθl, hθu⟩
  have hsin : 0 < Real.sin θ + 1 := by
    nlinarith [Real.sin_sq_add_cos_sq θ, Real.neg_one_le_sin θ, Real.sin_le_one θ,
      mul_pos hcos hcos]
  have hsum : 0 < Real.tan θ + 1 / Real.cos θ := by
    rw [Real.tan_eq_sin_div_cos, div_add_div_same]
    exact div_pos hsin hcos
  have hlog : Real.log (Real.tan θ + 1 / Real.cos θ) = merc_ordinate lat := by
    rw [merc_ordinate, ← hθ, Real.arsinh]
    congr 1
    have h1 : Real.sqrt (1 + Real.tan θ ^ 2) = (Real.cos θ)⁻¹ := by
      rw [← Real.inv_sqrt_one_add_tan_sq hcos, inv_inv]
    rw [h1, one_div]
  rw [deg2num, if_neg]
  · rw [← hθ, hlog]
  · rw [← hθ]
    push_neg
    exact ⟨ne_of_gt hcos, hsum⟩

/-- C2 (amended): for longitude in `[-180, 180)` and latitude strictly inside
the Web-Mercator band (Mercator ordinate in `(-π, π]`, about `±85.05°`),
`deg2num` succeeds and both the column and the row lie in `[0, 2^z)`.  The
claim's original domain — longitude up to and including `180` and every
latitude strictly between `±90°` — is refuted by
`deg2num_range_counterexample`. -/
theorem deg2num_in_range (lon lat : ℝ) (z : ℕ)
    (hlo : -180 ≤ lon) (hhi : lon < 180)
    (hlat₁ : -90 < lat) (hlat₂ : lat < 90)
    (hm₁ : -Real.pi < merc_ordinate lat) (hm₂ : merc_ordinate lat ≤ Real.pi) :
    ∃ c r : ℤ, deg2num lon lat z = some (c, r) ∧
      0 ≤ c ∧ c < 2 ^ z ∧ 0 ≤ r ∧ r < 2 ^ z := by
  have hp : (0:ℝ) < Real.pi := Real.pi_pos
  have hn : (0:ℝ) < 2 ^ z := by positivity
  have hu0 : (0:ℝ) ≤ (lon + 180) / 360 * 2 ^ z :=
    mul_nonneg (div_nonneg (by linarith) (by norm_num)) hn.le
  have hu1 : (lon + 180) / 360 * 2 ^ z < 2 ^ z := by
    have h1 : (lon + 180) / 360 < 1 := by linarith
    calc (lon + 180) / 360 * 2 ^ z < 1 * 2 ^ z := mul_lt_mul_of_pos_right h1 hn
    _ = 2 ^ z := one_mul _
  have hy0 : (0:ℝ) ≤ (1 - merc_ordinate lat / Real.pi) / 2 := by
    have : merc_ordinate lat / Real.pi ≤ 1 := (div_le_one hp).mpr hm₂
    linarith
  have hw0 : (0:ℝ) ≤ (1 - merc_ordinate lat / Real.pi) / 2 * 2 ^ z :=
    mul_nonneg hy0 hn.le
  have hw1 : (1 - merc_ordinate lat / Real.pi) / 2 * 2 ^ z < 2 ^ z := by
    have h2 : -1 < merc_ordinate lat / Real.pi := by
      rw [lt_div_iff₀ hp]
      linarith
    have hy1 : (1 - merc_ordinate lat / Real.pi) / 2 < 1 := by linarith
    calc (1 - merc_ordinate lat / Real.pi) / 2 * 2 ^ z < 1 * 2 ^ z :=
          mul_lt_mul_of_pos_right hy1 hn
    _ = 2 ^ z := one_mul _
  refine ⟨_, _, deg2num_eq_some lon lat z hlat₁ hlat₂, ?_, ?_, ?_, ?_⟩
  · rw [pytrunc_of_nonneg hu0]
    exact Int.le_floor.mpr (by exact_mod_cast hu0)
  · rw [pytrunc_of_nonneg hu0]
    refine Int.floor_lt.mpr ?_
    push_cast
    exact hu1
  · rw [pytrunc_of_nonneg hw0]
    exact Int.le_floor.mpr (by exact_mod_cast hw0)
  · rw [pytrunc_of_nonneg hw0]
    refine Int.floor_lt.mpr ?_
    push_cast
    exact hw1

theorem deg2num_in_range_witness :
    ((-180:ℝ) ≤ 0 ∧ (0:ℝ) < 180 ∧ (-90:ℝ) < 0 ∧ (0:ℝ) < 90 ∧
      -Real.pi < merc_ordinate 0 ∧ merc_ordinate 0 ≤ Real.pi) ∧
    (∃ c r : ℤ, deg2num 0 0 0 = some (c, r) ∧
      0 ≤ c ∧ c < 2 ^ 0 ∧ 0 ≤ r ∧ r < 2 ^ 0) := by
  have hm : merc_ordinate 0 = 0 := by
    simp [merc_ordinate, Real.tan_zero, Real.arsinh_zero]
  have hp : (0:ℝ) < Real.pi := Real.pi_pos
  refine ⟨⟨by norm_num, by norm_num, by norm_num, by norm_num, ?_, ?_⟩, ?_⟩
  · rw [hm]; linarith
  · rw [hm]; linarith
  · exact deg2num_in_range 0 0 0 (by norm_num) (by norm_num) (by norm_num) (by norm_num)
      (by rw [hm]; linarith) (by rw [hm]; linarith)

/-- C2 (counterexample): at longitude `180` — inside the claim's domain
`[-180°, 180°]` — latitude `0` and zoom `0`, `deg2num` returns column `1`,
which violates the claimed bound `column < 2^0 = 1`. -/
theorem deg2num_range_counterexample :
    deg2num 180 0 0 = some (1, 0) ∧ ¬ ((1:ℤ) < 2 ^ (0:ℕ)) := by
  constructor
  · have h := deg2num_eq_some 180 0 0 (by norm_num) (by norm_num)
    have hm : merc_ordinate 0 = 0 := by
      simp [merc_ordinate, Real.tan_zero, Real.arsinh_zero]
    rw [hm] at h
    rw [h]
    have h1 : ((180:ℝ) + 180) / 360 * 2 ^ (0:ℕ) = 1 := by norm_num
    have h2 : ((1:ℝ) - 0 / Real.pi) / 2 * 2 ^ (0:ℕ) = 1 / 2 := by norm_num
    rw [h1, h2, pytrunc_of_nonneg (by norm_num : (0:ℝ) ≤ 1),
      pytrunc_of_nonneg (by norm_num : (0:ℝ) ≤ 1 / 2)]
    norm_num
  · norm_num

/-- C8 (amended): for every latitude with `90° ≤ |lat| ≤ 270°` the projection
`deg2num` fails with a computation failure (division by zero at `1 / cos`, or a
logarithm domain error), modelled by `none`; no internal guard clamps the
latitude.  Beyond `±270°` trigonometric periodicity re-enters the valid domain
(see `deg2num_domain_counterexample`). -/
theorem deg2num_domain_error (lon lat : ℝ) (z : ℕ)
    (h₁ : 90 ≤ |lat|) (h₂ : |lat| ≤ 270) :
    deg2num lon lat z = none := by
  have hp : (0:ℝ) < Real.pi := Real.pi_pos
  set θ : ℝ := lat * (Real.pi / 180) with hθ
  have habs : |θ| = |lat| * (Real.pi / 180) := by
    rw [hθ, abs_mul, abs_of_pos (show (0:ℝ) < Real.pi / 180 by positivity)]
  have habs₁ : Real.pi / 2 ≤ |θ| := by
    rw [habs]
    have := mul_le_mul_of_nonneg_right h₁ (le_of_lt (show (0:ℝ) < Real.pi / 180 by positivity))
    calc Real.pi / 2 = 90 * (Real.pi / 180) := by ring
    _ ≤ |lat| * (Real.pi / 180) := this
  have habs₂ : |θ| ≤ Real.pi + Real.pi / 2 := by
    rw [habs]
    have := mul_le_mul_of_nonneg_right h₂ (le_of_lt (show (0:ℝ) < Real.pi / 180 by positivity))
    calc |lat| * (Real.pi / 180) ≤ 270 * (Real.pi / 180) := this
    _ = Real.pi + Real.pi / 2 := by ring
  have hcos : Real.cos θ ≤ 0 := by
    rw [← Real.cos_abs]
    exact Real.cos_nonpos_of_pi_div_two_le_of_le habs₁ habs₂
  rw [deg2num, if_pos]
  rw [← hθ]
  rcases eq_or_lt_of_le hcos with h0 | hneg
  · exact Or.inl h0
  · refine Or.inr ?_
    rw [Real.tan_eq_sin_div_cos, div_add_div_same]
    have hs : 0 ≤ Real.sin θ + 1 := by
      have := Real.neg_one_le_sin θ
      linarith
    exact div_nonpos_of_nonneg_of_nonpos hs hneg.le

theorem deg2num_domain_error_witness :
    ((90:ℝ) ≤ |(90:ℝ)| ∧ |(90:ℝ)| ≤ 270) ∧ deg2num 0 90 0 = none := by
  refine ⟨⟨by norm_num, by norm_num⟩, ?_⟩
  exact deg2num_domain_error 0 90 0 (by norm_num) (by norm_num)

/-- C8 (counterexample): latitude `360°` is "at or beyond `±90°`" in absolute
value, yet `deg2num` does not fail there: it returns the in-range tile
`(0, 0)` at zoom `0`, because the trigonometric functions are periodic. -/
theorem deg2num_domain_counterexample :
    deg2num 0 360 0 = some (0, 0) ∧ (0 ≤ (0:ℤ) ∧ (0:ℤ) < 2 ^ (0:ℕ)) := by
  have hθ : (360:ℝ) * (Real.pi / 180) = 2 * Real.pi := by ring
  have htan : Real.tan ((360:ℝ) * (Real.pi / 180)) = 0 := by
    rw [hθ, Real.tan_eq_sin_div_cos, Real.sin_two_pi, Real.cos_two_pi]
    norm_num
  have hcos : Real.cos ((360:ℝ) * (Real.pi / 180)) = 1 := by
    rw [hθ, Real.cos_two_pi]
  refine ⟨?_, by norm_num⟩
  rw [deg2num, htan, hcos, if_neg (by norm_num)]
  have h1 : ((0:ℝ) + 180) / 360 * 2 ^ (0:ℕ) = 1 / 2 := by norm_num
  have h2 : ((1:ℝ) - Real.log (0 + 1 / 1) / Real.pi) / 2 * 2 ^ (0:ℕ) = 1 / 2 := by
    norm_num
  rw [h1, h2, pytrunc_of_nonneg (by norm_num : (0:ℝ) ≤ 1 / 2)]
  norm_num

theorem num2deg_false (column row : ℝ) (z : ℕ) :
    num2deg column row z false = (column / 2 ^ z * 360 - 180,
      Real.arctan (Real.sinh (Real.pi * (1 - 2 * row / 2 ^ z))) * (180 / Real.pi)) := by
  simp [num2deg]

/-- C6: for every coordinate with `lat ∈ (-90°, 90°)` and `lon ∈ [-180°, 180°]`
and every zoom `z`, `deg2num` succeeds and
`num2deg (deg2num (lon, lat)) (center := false)` comes back within one tile of
the input: the longitude differs by less than one tile width `360 / 2^z`, and
the latitude differs by less than one tile height, measured in the Mercator
ordinate `merc_ordinate` in which the `2^z` tile rows are equally spaced (one
tile height there is `2 * π / 2^z`). -/
theorem deg2num_num2deg_roundtrip (lon lat : ℝ) (z : ℕ)
    (h₁ : -180 ≤ lon) (h₂ : lon ≤ 180) (h₃ : -90 < lat) (h₄ : lat < 90) :
    ∃ c r : ℤ, deg2num lon lat z = some (c, r) ∧
      |(num2deg c r z false).1 - lon| < 360 / 2 ^ z ∧
      |merc_ordinate ((num2deg c r z false).2) - merc_ordinate lat| <
        2 * Real.pi / 2 ^ z := by
  have hp : (0:ℝ) < Real.pi := Real.pi_pos
  have hn : (0:ℝ) < 2 ^ z := by positivity
  have hne : (2:ℝ) ^ z ≠ 0 := ne_of_gt hn
  refine ⟨_, _, deg2num_eq_some lon lat z h₃ h₄, ?_, ?_⟩
  · set u : ℝ := (lon + 180) / 360 * 2 ^ z with hu
    set c : ℝ := (pytrunc u : ℝ) with hc
    have h5 : c < u + 1 := pytrunc_lt_add_one u
    have h6 : u - 1 < c := sub_one_lt_pytrunc u
    rw [num2deg_false]
    have hlon : u / 2 ^ z * 360 - 180 = lon := by
      rw [hu]
      field_simp
      ring
    have heq : c / 2 ^ z * 360 - 180 - lon = (c - u) * (360 / 2 ^ z) := by
      rw [← hlon]
      field_simp
      ring
    show |c / 2 ^ z * 360 - 180 - lon| < 360 / 2 ^ z
    rw [heq, abs_mul, abs_of_pos (by positivity : (0:ℝ) < 360 / 2 ^ z)]
    have habs : |c - u| < 1 := abs_lt.mpr ⟨by linarith, by linarith⟩
    calc |c - u| * (360 / 2 ^ z) < 1 * (360 / 2 ^ z) :=
          mul_lt_mul_of_pos_right habs (by positivity)
    _ = 360 / 2 ^ z := one_mul _
  · set M : ℝ := merc_ordinate lat with hM
    set w : ℝ := (1 - M / Real.pi) / 2 * 2 ^ z with hw
    set r : ℝ := (pytrunc w : ℝ) with hr
    have h5 : r < w + 1 := pytrunc_lt_add_one w
    have h6 : w - 1 < r := sub_one_lt_pytrunc w
    rw [num2deg_false]
    show |merc_ordinate (Real.arctan (Real.sinh (Real.pi * (1 - 2 * r / 2 ^ z))) *
      (180 / Real.pi)) - M| < 2 * Real.pi / 2 ^ z
    rw [merc_ordinate]
    have hx : Real.arctan (Real.sinh (Real.pi * (1 - 2 * r / 2 ^ z))) * (180 / Real.pi) *
        (Real.pi / 180) = Real.arctan (Real.sinh (Real.pi * (1 - 2 * r / 2 ^ z))) := by
      field_simp
    rw [hx, Real.tan_arctan, Real.arsinh_sinh]
    have hM2 : Real.pi * (1 - 2 * w / 2 ^ z) = M := by
      rw [hw]
      field_simp
      ring
    have heq : Real.pi * (1 - 2 * r / 2 ^ z) - M = (w - r) * (2 * Real.pi / 2 ^ z) := by
      rw [← hM2]
      field_simp
      ring
    rw [heq, abs_mul, abs_of_pos (by positivity : (0:ℝ) < 2 * Real.pi / 2 ^ z)]
    have habs : |w - r| < 1 := abs_lt.mpr ⟨by linarith, by linarith⟩
    calc |w - r| * (2 * Real.pi / 2 ^ z) < 1 * (2 * Real.pi / 2 ^ z) :=
          mul_lt_mul_of_pos_right habs (by positivity)
    _ = 2 * Real.pi / 2 ^ z := one_mul _

theorem deg2num_num2deg_roundtrip_witness :
    ((-180:ℝ) ≤ 0 ∧ (0:ℝ) ≤ 180 ∧ (-90:ℝ) < 0 ∧ (0:ℝ) < 90) ∧
    (∃ c r : ℤ, deg2num 0 0 0 = some (c, r) ∧
      |(num2deg c r 0 false).1 - 0| < 360 / 2 ^ 0 ∧
      |merc_ordinate ((num2deg c r 0 false).2) - merc_ordinate 0| <
        2 * Real.pi / 2 ^ 0) :=
  ⟨⟨by norm_num, by norm_num, by norm_num, by norm_num⟩,
    deg2num_num2deg_roundtrip 0 0 0 (by norm_num) (by norm_num) (by norm_num) (by norm_num)⟩

theorem merc_ordinate_zero : merc_ordinate 0 = 0 := by
  simp [merc_ordinate, Real.tan_zero, Real.arsinh_zero]

theorem deg2num_zero_eq : deg2num 0 0 0 = some (0, 0) := by
  have h := deg2num_eq_some 0 0 0 (by norm_num) (by norm_num)
  rw [merc_ordinate_zero] at h
  rw [h]
  have h1 : ((0:ℝ) + 180) / 360 * 2 ^ (0:ℕ) = 1 / 2 := by norm_num
  have h2 : ((1:ℝ) - 0 / Real.pi) / 2 * 2 ^ (0:ℕ) = 1 / 2 := by norm_num
  rw [h1, h2, pytrunc_of_nonneg (by norm_num : (0:ℝ) ≤ 1 / 2)]
  norm_num

/-- GeoJSON coordinate structures fed to `convert_to_slippy_tile_coords`:
either a rank-3 Polygon — a list of rings of `(lon, lat)` points — or a
rank-4 MultiPolygon. -/
inductive GeoCoords where
  | polygon (rings : List (List (ℝ × ℝ)))
  | multiPolygon (polys : List (List (List (ℝ × ℝ))))

/-- Converted geometries: the same nesting with integer tile coordinates. -/
inductive TileGeom where
  | polygon (rings : List (List (ℤ × ℤ)))
  | multiPolygon (polys : List (List (List (ℤ × ℤ))))
deriving DecidableEq

/-- Element-wise application of `deg2num` to the points of one ring; any
failure of `deg2num` propagates. -/
noncomputable def convert_ring (zoom : ℕ) : List (ℝ × ℝ) → Option (List (ℤ × ℤ))
  | [] => some []
  | pt :: pts =>
    match deg2num pt.1 pt.2 zoom, convert_ring zoom pts with
    | some c, some cs => some (c :: cs)
    | _, _ => none

/-- Element-wise application of `deg2num` to every point of every ring. -/
noncomputable def convert_rings (zoom : ℕ) :
    List (List (ℝ × ℝ)) → Option (List (List (ℤ × ℤ)))
  | [] => some []
  | r :: rs =>
    match convert_ring zoom r, convert_rings zoom rs with
    | some c, some cs => some (c :: cs)
    | _, _ => none

/-- `np.array` on rank-3 Polygon coordinates produces an ndarray of shape
`(#rings, L, 2)` — so that axis `2` exists — only when there is at least one
ring and all rings share one common positive length `L`; otherwise the nesting
is ragged (or the array rank is below 3) and the conversion raises. -/
def rect_rings (rings : List (List (ℝ × ℝ))) : Bool :=
  match rings with
  | [] => false
  | r :: rs => decide (0 < r.length) && rs.all (fun r2 => r2.length == r.length)

/-- Rectangularity of rank-4 MultiPolygon coordinates: shape
`(#polys, #rings, L, 2)` with at least one polygon, a common ring count and a
common positive ring length `L`. -/
def rect_polys (polys : List (List (List (ℝ × ℝ)))) : Bool :=
  match polys with
  | [] => false
  | q :: qs =>
    match q with
    | [] => false
    | r :: _ =>
      decide (0 < r.length) &&
        (q :: qs).all (fun q2 => q2.length == q.length &&
          q2.all (fun r2 => r2.length == r.length))

/-- On a rank-4 array, `np.apply_along_axis(deg2num, 2, arr)` applies `deg2num`
to the 1-dimensional slices `arr[i, j, :, l]`: for a MultiPolygon these are
the two per-component columns of a ring's `(L, 2)` point matrix, not its
points.  `deg2num` reads the first two entries of such a column (an
`IndexError` — `none` — if the ring has fewer than two points), and the two
2-entry results are reassembled along axis 2, giving a ring of shape `(2, 2)`
whatever `L` was. -/
noncomputable def convert_ring_axis2 (zoom : ℕ) (ring : List (ℝ × ℝ)) :
    Option (List (ℤ × ℤ)) :=
  match ring.map Prod.fst, ring.map Prod.snd with
  | x0 :: x1 :: _, y0 :: y1 :: _ =>
    match deg2num x0 x1 zoom, deg2num y0 y1 zoom with
    | some cx, some cy => some [(cx.1, cy.1), (cx.2, cy.2)]
    | _, _ => none
  | _, _ => none

noncomputable def convert_rings_axis2 (zoom : ℕ) :
    List (List (ℝ × ℝ)) → Option (List (List (ℤ × ℤ)))
  | [] => some []
  | r :: rs =>
    match convert_ring_axis2 zoom r, convert_rings_axis2 zoom rs with
    | some c, some cs => some (c :: cs)
    | _, _ => none

noncomputable def convert_polys_axis2 (zoom : ℕ) :
    List (List (List (ℝ × ℝ))) → Option (List (List (List (ℤ × ℤ))))
  | [] => some []
  | q :: qs =>
    match convert_rings_axis2 zoom q, convert_polys_axis2 zoom qs with
    | some c, some cs => some (c :: cs)
    | _, _ => none

/-- Embedding of `np.apply_along_axis(deg2num, 2, np.array(coords), zoom=zoom)`
(process_city_shapes.py, line 118).  For a rank-3 Polygon array axis 2 is the
coordinate axis, so `deg2num` is applied to each `(lon, lat)` pair; for a
rank-4 MultiPolygon array axis 2 is the point axis, so `deg2num` is applied to
the component columns of each ring instead.  `np.array` fails on ragged
(non-rectangular) nesting and `apply_along_axis` fails when axis 2 does not
exist; both failures are modelled by `none`. -/
noncomputable def apply_deg2num_axis2 (zoom : ℕ) : GeoCoords → Option TileGeom
  | GeoCoords.polygon rings =>
    if rect_rings rings then (convert_rings zoom rings).map TileGeom.polygon
    else none
  | GeoCoords.multiPolygon polys =>
    if rect_polys polys then (convert_polys_axis2 zoom polys).map TileGeom.multiPolygon
    else none

/-- Embedding of `convert_to_slippy_tile_coords` (lines 107-121): converts each
polygon of the batch by applying `deg2num` along axis 2 of its coordinate
array; an exception raised for any polygon aborts the whole batch (`none`). -/
noncomputable def convert_to_slippy_tile_coords : List GeoCoords → ℕ → Option (List TileGeom)
  | [], _ => some []
  | p :: ps, zoom =>
    match apply_deg2num_axis2 zoom p, convert_to_slippy_tile_coords ps zoom with
    | some tp, some tps => some (tp :: tps)
    | _, _ => none

theorem convert_ring_length (zoom : ℕ) : ∀ (r : List (ℝ × ℝ)) (s : List (ℤ × ℤ)),
    convert_ring zoom r = some s → r.length = s.length := by
  intro r
  induction r with
  | nil =>
    intro s h
    simp only [convert_ring, Option.some.injEq] at h
    subst h
    rfl
  | cons pt pts ih =>
    intro s h
    cases hd : deg2num pt.1 pt.2 zoom with
    | none => simp [convert_ring, hd] at h
    | some c =>
      cases tl : convert_ring zoom pts with
      | none => simp [convert_ring, hd, tl] at h
      | some cs =>
        simp only [convert_ring, hd, tl, Option.some.injEq] at h
        subst h
        simp [ih cs tl]

theorem convert_rings_forall (zoom : ℕ) :
    ∀ (rs : List (List (ℝ × ℝ))) (ss : List (List (ℤ × ℤ))),
    convert_rings zoom rs = some ss →
    List.Forall₂ (fun (r : List (ℝ × ℝ)) (s : List (ℤ × ℤ)) => r.length = s.length)
      rs ss := by
  intro rs
  induction rs with
  | nil =>
    intro ss h
    simp only [convert_rings, Option.some.injEq] at h
    subst h
    exact List.Forall₂.nil
  | cons r rs ih =>
    intro ss h
    cases hd : convert_ring zoom r with
    | none => simp [convert_rings, hd] at h
    | some c =>
      cases tl : convert_rings zoom rs with
      | none => simp [convert_rings, hd, tl] at h
      | some cs =>
        simp only [convert_rings, hd, tl, Option.some.injEq] at h
        subst h
        exact List.Forall₂.cons (convert_ring_length zoom r c hd) (ih cs tl)

/-- C7 (amended): the batch projection applies `deg2num` element-wise and
preserves the nesting structure exactly on rank-3 Polygon coordinate arrays
(rectangular: at least one ring, all rings of one common positive length):
there it equals the element-wise map of `deg2num` over the `(lon, lat)` pairs,
and the number of rings and of points per ring is preserved.  For rank-4
MultiPolygon arrays the hard-coded axis `2` is the point axis, not the
coordinate axis, and the structure is not preserved
(`convert_axis2_counterexample`); ragged multi-ring geometries fail outright. -/
theorem convert_polygon_elementwise (rings : List (List (ℝ × ℝ))) (z : ℕ)
    (h : rect_rings rings = true) :
    apply_deg2num_axis2 z (GeoCoords.polygon rings) =
      (convert_rings z rings).map TileGeom.polygon ∧
    ∀ rs, convert_rings z rings = some rs →
      List.Forall₂ (fun (r : List (ℝ × ℝ)) (s : List (ℤ × ℤ)) => r.length = s.length)
        rings rs := by
  constructor
  · simp only [apply_deg2num_axis2]
    rw [if_pos h]
  · intro rs hrs
    exact convert_rings_forall z rings rs hrs

theorem convert_polygon_elementwise_witness :
    rect_rings [[((0:ℝ), (0:ℝ))]] = true ∧
    (apply_deg2num_axis2 0 (GeoCoords.polygon [[(0, 0)]]) =
      (convert_rings 0 [[(0, 0)]]).map TileGeom.polygon ∧
     ∀ rs, convert_rings 0 [[(0, 0)]] = some rs →
      List.Forall₂ (fun (r : List (ℝ × ℝ)) (s : List (ℤ × ℤ)) => r.length = s.length)
        [[(0, 0)]] rs) :=
  ⟨by rfl, convert_polygon_elementwise [[(0, 0)]] 0 (by rfl)⟩

/-- C7 (counterexample): a rank-4 MultiPolygon whose single ring has three
points.  The element-wise transform of that ring keeps its three points, but
the code's axis-2 application returns a ring of only two entries (built from
the component columns), so the nesting structure of the geometry is not
preserved and the points are not transformed pairwise. -/
theorem convert_axis2_counterexample :
    apply_deg2num_axis2 0 (GeoCoords.multiPolygon [[[(0, 0), (0, 0), (0, 0)]]]) =
      some (TileGeom.multiPolygon [[[(0, 0), (0, 0)]]]) ∧
    convert_ring 0 [(0, 0), (0, 0), (0, 0)] = some [(0, 0), (0, 0), (0, 0)] ∧
    TileGeom.multiPolygon [[[(0, 0), (0, 0)]]] ≠
      TileGeom.multiPolygon [[[(0, 0), (0, 0), (0, 0)]]] := by
  refine ⟨?_, ?_, by decide⟩
  · simp only [apply_deg2num_axis2]
    rw [if_pos (by rfl)]
    simp [convert_polys_axis2, convert_rings_axis2, convert_ring_axis2, deg2num_zero_eq]
  · simp [convert_ring, deg2num_zero_eq]

/-- All rings of a converted geometry (for a MultiPolygon, of all members). -/
def all_rings : TileGeom → List (List (ℤ × ℤ))
  | TileGeom.polygon rs => rs
  | TileGeom.multiPolygon ps => ps.join

/-- shapely `.bounds`: `(min_x, min_y, max_x, max_y)` over all coordinates of
the geometry (degenerate `(0, 0, 0, 0)` for an empty geometry). -/
def shapely_bounds (g : TileGeom) : ℤ × ℤ × ℤ × ℤ :=
  match (all_rings g).join with
  | [] => (0, 0, 0, 0)
  | p :: ps =>
    (ps.foldl (fun m q => min m q.1) p.1,
     ps.foldl (fun m q => min m q.2) p.2,
     ps.foldl (fun m q => max m q.1) p.1,
     ps.foldl (fun m q => max m q.2) p.2)

/-- `np.arange(a, b)` on integer arguments: `a, a + 1, …`, strictly below `b`. -/
def np_arange (a b : ℤ) : List ℤ :=
  (List.range (b - a).toNat).map (fun k : ℕ => a + (k : ℤ))

/-- The candidate lattice scanned by `get_coords_inside_polygon` (lines
157-162): the meshgrid of `np.arange(bounds[0], bounds[2])` and
`np.arange(bounds[1], bounds[3])`, flattened row-major (`y` outer, `x`
inner), as produced by `np.meshgrid` + `flatten` + `vstack(...).T`. -/
def candidate_points (g : TileGeom) : List (ℤ × ℤ) :=
  (np_arange (shapely_bounds g).2.1 (shapely_bounds g).2.2.2).bind
    (fun y => (np_arange (shapely_bounds g).1 (shapely_bounds g).2.2.1).map
      (fun x => (x, y)))

/-- Is `p` on the closed segment from `a` to `b` (integer coordinates)? -/
def on_segment (p a b : ℤ × ℤ) : Bool :=
  decide ((b.1 - a.1) * (p.2 - a.2) = (b.2 - a.2) * (p.1 - a.1)) &&
  decide (min a.1 b.1 ≤ p.1) && decide (p.1 ≤ max a.1 b.1) &&
  decide (min a.2 b.2 ≤ p.2) && decide (p.2 ≤ max a.2 b.2)

/-- One even-odd ray-crossing test: does the edge from `e.1` to `e.2` cross the
horizontal ray going right from `p`?  Standard half-open rule, with the
intersection comparison cleared of its division by `e.2.2 - e.1.2`. -/
def edge_crosses (p : ℤ × ℤ) (e : (ℤ × ℤ) × (ℤ × ℤ)) : Bool :=
  if (decide (p.2 < e.1.2)) == (decide (p.2 < e.2.2)) then false
  else if e.1.2 < e.2.2 then
    decide ((p.1 - e.1.1) * (e.2.2 - e.1.2) < (e.2.1 - e.1.1) * (p.2 - e.1.2))
  else
    decide ((e.2.1 - e.1.1) * (p.2 - e.1.2) < (p.1 - e.1.1) * (e.2.2 - e.1.2))

/-- The edges of a closed ring (first vertex repeated at the end, as in
GeoJSON/shapely rings): consecutive vertex pairs. -/
def ring_edges (ring : List (ℤ × ℤ)) : List ((ℤ × ℤ) × (ℤ × ℤ)) :=
  ring.zip ring.tail

/-- Model of shapely's strict `polygon.contains(Point(x))` on integer points:
true iff the point is not on any ring edge (boundary excluded) and a rightward
horizontal ray from it crosses the geometry's edges an odd number of times
(even-odd interior; holes subtract because their crossings flip the parity). -/
def shapely_contains (g : TileGeom) (p : ℤ × ℤ) : Bool :=
  (!((all_rings g).bind ring_edges).any (fun e => on_segment p e.1 e.2)) &&
  (((all_rings g).bind ring_edges).countP (fun e => edge_crosses p e) % 2 == 1)

/-- Embedding of `point_mapper` (lines 135-143): the boolean mask entry for a
candidate point — `not polygon.contains(Point((x[0], x[1])))`, i.e. `true`
means "mask this point out". -/
def point_mapper (x : ℤ × ℤ) (polygon : TileGeom) : Bool :=
  !(shapely_contains polygon x)

/-- Embedding of `get_coords_inside_polygon` (lines 146-171): scan the integer
meshgrid of the bounding box, mask each point with `point_mapper`, and keep
the unmasked points (`np.ma.masked_array(points, mask).compressed()` drops the
masked ones and `reshape((-1, 2))` restores the point pairs). -/
def get_coords_inside_polygon (polygon : TileGeom) : List (ℤ × ℤ) :=
  (candidate_points polygon).filter (fun p => !(point_mapper p polygon))

/-- Following the spec's words for the rasterizer's candidate set: "every
integer x with floor(min_x) ≤ x ≤ floor(max_x) paired with every integer y
with floor(min_y) ≤ y ≤ floor(max_y)" — both bounds inclusive.  Tile-space
bounds are integers, so their floors are the bounds themselves. -/
def spec_candidate_lattice (g : TileGeom) : Set (ℤ × ℤ) :=
  {p | (shapely_bounds g).1 ≤ p.1 ∧ p.1 ≤ (shapely_bounds g).2.2.1 ∧
       (shapely_bounds g).2.1 ≤ p.2 ∧ p.2 ≤ (shapely_bounds g).2.2.2}

/-- The literal square polygon of the spec's rasterization example: corners
`(0,0)`, `(2,0)`, `(2,2)`, `(0,2)` in tile coordinates, as a closed ring. -/
def square_tile : TileGeom :=
  TileGeom.polygon [[(0, 0), (2, 0), (2, 2), (0, 2), (0, 0)]]

theorem mem_np_arange (a b x : ℤ) : x ∈ np_arange a b ↔ a ≤ x ∧ x < b := by
  unfold np_arange
  simp only [List.mem_map, List.mem_range]
  constructor
  · rintro ⟨k, hk, rfl⟩
    omega
  · intro h
    exact ⟨(x - a).toNat, by omega, by omega⟩

/-- C3 (amended): the candidate lattice actually scanned is the integer grid of
the bounding box with the lower bounds included and the upper bounds excluded
(numpy `arange(lo, hi)` stops strictly below `hi`): exactly the pairs with
`min_x ≤ x < max_x` and `min_y ≤ y < max_y`.  The claim's both-bounds-inclusive
lattice is refuted by `candidate_lattice_counterexample`. -/
theorem mem_candidate_points (g : TileGeom) (p : ℤ × ℤ) :
    p ∈ candidate_points g ↔
      ((shapely_bounds g).1 ≤ p.1 ∧ p.1 < (shapely_bounds g).2.2.1 ∧
       (shapely_bounds g).2.1 ≤ p.2 ∧ p.2 < (shapely_bounds g).2.2.2) := by
  unfold candidate_points
  simp only [List.mem_bind, List.mem_map, mem_np_arange]
  constructor
  · rintro ⟨y, hy, x, hx, rfl⟩
    exact ⟨hx.1, hx.2, hy.1, hy.2⟩
  · intro h
    exact ⟨p.2, ⟨h.2.2.1, h.2.2.2⟩, p.1, ⟨h.1, h.2.1⟩, rfl⟩

/-- C3 (counterexample): for the square with corners `(0,0)` to `(2,2)` the
spec's inclusive lattice contains `(2, 2)`, but the code's scanned candidate
set does not — `np.arange` excludes the upper bounds. -/
theorem candidate_lattice_counterexample :
    ((2, 2) : ℤ × ℤ) ∈ spec_candidate_lattice square_tile ∧
    ((2, 2) : ℤ × ℤ) ∉ candidate_points square_tile := by
  constructor
  · simp only [spec_candidate_lattice, Set.mem_setOf_eq]
    decide
  · decide

/-- C4: the rasterizer returns exactly those candidate lattice points that pass
the strict containment predicate, with boundary points excluded.  First
conjunct: for every polygon, membership in the result is candidate membership
plus strict containment.  Second and third conjuncts: for the literal square
with corners `(0,0)`, `(2,0)`, `(2,2)`, `(0,2)`, the returned list is exactly
`[(1, 1)]`, and the strict containment predicate holds of an integer point iff
that point is strictly inside the square (`0 < x < 2` and `0 < y < 2`) — so
the result is exactly the strict interior lattice. -/
theorem get_coords_inside_polygon_exact :
    (∀ (g : TileGeom) (p : ℤ × ℤ),
      p ∈ get_coords_inside_polygon g ↔
        p ∈ candidate_points g ∧ shapely_contains g p = true) ∧
    get_coords_inside_polygon square_tile = [(1, 1)] ∧
    (∀ p : ℤ × ℤ, shapely_contains square_tile p = true ↔
      (0 < p.1 ∧ p.1 < 2 ∧ 0 < p.2 ∧ p.2 < 2)) := by
  refine ⟨?_, by decide, ?_⟩
  · intro g p
    unfold get_coords_inside_polygon point_mapper
    rw [List.mem_filter]
    simp [Bool.not_not]
  · intro p
    obtain ⟨x, y⟩ := p
    have hE : (all_rings square_tile).bind ring_edges =
        [((0, 0), (2, 0)), ((2, 0), (2, 2)), ((2, 2), (0, 2)), ((0, 2), (0, 0))] := by
      rfl
    rw [shapely_contains, hE]
    simp only [on_segment, edge_crosses,
      List.any_cons, List.any_nil, List.countP_cons, List.countP_nil,
      Bool.and_eq_true, Bool.or_eq_true, Bool.not_eq_true',
      Bool.or_eq_false_iff, Bool.and_eq_false_iff,
      decide_eq_true_eq, decide_eq_false_iff_not, beq_iff_eq, decide_eq_decide]
    norm_num
    constructor
    · intro h
      obtain ⟨h1, h2⟩ := h
      split_ifs at h2 <;> omega
    · intro h
      constructor
      · omega
      · split_ifs <;> omega

/-- State of the persistence collaborator (`solardb`): the set of region names
that already have a computed interior grid. -/
structure DbState where
  computedNames : List String

/-- Embedding of `solardb.get_inner_coords_calculated_polygon_names()`. -/
def get_inner_coords_calculated_polygon_names (db : DbState) : List String :=
  db.computedNames

/-- Embedding of `solardb.polygon_has_inner_grid(name)`. -/
def polygon_has_inner_grid (db : DbState) (name : String) : Bool :=
  db.computedNames.contains name

/-- A call issued to the persistence collaborator, recorded in program order. -/
inductive DbCall where
  | persistPolygons (namesAndPolygons : List (String × TileGeom)) (zoom : ℕ)
  | persistCoords (name : String) (coords : List (ℤ × ℤ)) (zoom : ℕ)

def assertion_error_message : String := "AssertionError"

def math_domain_error_message : String := "ValueError: math domain error"

/-- Modelled from the spec: the region source (`gather_city_shapes.py`, which
is not under `src/`) "produces an ordered sequence of (name, polygon) pairs";
a CSV is modelled as the ordered list of its rows `(city, state, geometry)`,
the geometry standing for the content of `data/geoJSON/<city>.<state>.json`.
`get_city_state_tuples` yields the `(city, state)` pairs in CSV order. -/
def get_city_state_tuples (csv : List (String × String × GeoCoords)) :
    List (String × String) :=
  csv.map (fun row => (row.1, row.2.1))

/-- Embedding of `get_polygons` (lines 62-77): yields the geometry of every CSV
row whose `"city, state"` name string is not in the exclusion list. -/
def get_polygons (csv : List (String × String × GeoCoords))
    (exclude : List String) : List GeoCoords :=
  (csv.filter (fun row =>
    !(exclude.contains (String.intercalate ", " [row.1, row.2.1])))).map
    (fun row => row.2.2)

/-- Embedding of `combine_all_polygons` (lines 80-90): the loaded polygons,
each passed through the simplification.  The geometric content of the shapely
simplification pipeline is modelled separately (`simplify_polygon` below, on
vertex rings); the orchestrator applies it polygon by polygon, so it is taken
here as a parameter `sf`. -/
def combine_all_polygons (sf : GeoCoords → GeoCoords)
    (csv : List (String × String × GeoCoords)) (exclude : List String) :
    List GeoCoords :=
  (get_polygons csv exclude).map sf

/-- Embedding of `calculate_inner_coordinates` (lines 204-215).  Returns the
ordered trace of persistence calls, together with `none` on success or the
raised error.  The projection of the polygon list (line 205) runs first, so a
projection failure propagates before anything else; then the `assert` on line
206 compares the lengths; on success `persist_polygons` is called once, and
`persist_coords` once per region whose interior grid is not yet computed. -/
noncomputable def calculate_inner_coordinates (polygon_names : List String)
    (polygons : List GeoCoords) (zoom : ℕ) (db : DbState) :
    List DbCall × Option String :=
  match convert_to_slippy_tile_coords polygons zoom with
  | none => ([], some math_domain_error_message)
  | some slippy =>
    if polygon_names.length = slippy.length then
      (DbCall.persistPolygons (polygon_names.zip slippy) zoom ::
        ((polygon_names.zip slippy).filter
          (fun np => !(polygon_has_inner_grid db np.1))).map
          (fun np => DbCall.persistCoords np.1 (get_coords_inside_polygon np.2) zoom),
       none)
    else ([], some assertion_error_message)

/-- Embedding of `calculate_inner_coordinates_from_csvpath` (lines 188-201):
loads the polygons excluding the names the collaborator reports as already
computed (line 197), rebuilds the name list from the full CSV (lines 198-199),
and runs `calculate_inner_coordinates`. -/
noncomputable def calculate_inner_coordinates_from_csvpath
    (sf : GeoCoords → GeoCoords) (csv : List (String × String × GeoCoords))
    (db : DbState) (zoom : ℕ) : List DbCall × Option String :=
  calculate_inner_coordinates
    ((get_city_state_tuples csv).map (fun cs => String.intercalate ", " [cs.1, cs.2]))
    (combine_all_polygons sf csv (get_inner_coords_calculated_polygon_names db))
    zoom db

theorem convert_length (z : ℕ) : ∀ (ps : List GeoCoords) (ts : List TileGeom),
    convert_to_slippy_tile_coords ps z = some ts → ps.length = ts.length := by
  intro ps
  induction ps with
  | nil =>
    intro ts h
    simp only [convert_to_slippy_tile_coords, Option.some.injEq] at h
    subst h
    rfl
  | cons p ps ih =>
    intro ts h
    cases hd : apply_deg2num_axis2 z p with
    | none => simp [convert_to_slippy_tile_coords, hd] at h
    | some tp =>
      cases tl : convert_to_slippy_tile_coords ps z with
      | none => simp [convert_to_slippy_tile_coords, hd, tl] at h
      | some tps =>
        simp only [convert_to_slippy_tile_coords, hd, tl, Option.some.injEq] at h
        subst h
        simp [ih tps tl]

/-- C5 (amended): feeding name and polygon lists of unequal length to
`calculate_inner_coordinates` always raises an error and performs no
persistence call; the raised error is the fatal precondition (`assert`) error
whenever the batch projection of the polygon list succeeds.  When a polygon
makes the projection itself raise, that numeric error fires first instead
(`assert_order_counterexample`), because the conversion on line 205 precedes
the assert on line 206. -/
theorem calculate_inner_coordinates_mismatch (polygon_names : List String)
    (polygons : List GeoCoords) (zoom : ℕ) (db : DbState)
    (h : polygon_names.length ≠ polygons.length) :
    (calculate_inner_coordinates polygon_names polygons zoom db).1 = [] ∧
    (calculate_inner_coordinates polygon_names polygons zoom db).2 ≠ none ∧
    (∀ ts, convert_to_slippy_tile_coords polygons zoom = some ts →
      calculate_inner_coordinates polygon_names polygons zoom db =
        ([], some assertion_error_message)) := by
  cases hc : convert_to_slippy_tile_coords polygons zoom with
  | none =>
    refine ⟨?_, ?_, ?_⟩
    · simp [calculate_inner_coordinates, hc]
    · simp [calculate_inner_coordinates, hc]
    · intro ts hts
      exact Option.noConfusion hts
  | some ts =>
    have hlen : polygon_names.length ≠ ts.length := by
      have := convert_length zoom polygons ts hc
      omega
    refine ⟨?_, ?_, ?_⟩
    · simp [calculate_inner_coordinates, hc, hlen]
    · simp [calculate_inner_coordinates, hc, hlen]
    · intro ts2 hts
      have he : ts = ts2 := Option.some.inj hts
      subst he
      simp [calculate_inner_coordinates, hc, hlen]

theorem calculate_inner_coordinates_mismatch_witness :
    (["a"].length ≠ ([] : List GeoCoords).length) ∧
    ((calculate_inner_coordinates ["a"] [] 21 ⟨[]⟩).1 = [] ∧
     (calculate_inner_coordinates ["a"] [] 21 ⟨[]⟩).2 ≠ none ∧
     (∀ ts, convert_to_slippy_tile_coords [] 21 = some ts →
      calculate_inner_coordinates ["a"] [] 21 ⟨[]⟩ =
        ([], some assertion_error_message))) :=
  ⟨by decide, calculate_inner_coordinates_mismatch ["a"] [] 21 ⟨[]⟩ (by decide)⟩

theorem deg2num_none_at_90 (lon : ℝ) (z : ℕ) : deg2num lon 90 z = none := by
  have h : Real.cos ((90:ℝ) * (Real.pi / 180)) = 0 := by
    have h2 : (90:ℝ) * (Real.pi / 180) = Real.pi / 2 := by ring
    rw [h2, Real.cos_pi_div_two]
  rw [deg2num, if_pos (Or.inl h)]

/-- C5 (counterexample): with an empty name list and one polygon containing
latitude `90°` — lengths `0 ≠ 1` — the error raised is the projection's math
domain error, not the fatal precondition (`assert`) error: the conversion on
line 205 runs before the assert on line 206.  No persistence call is made
either way. -/
theorem assert_order_counterexample :
    calculate_inner_coordinates [] [GeoCoords.polygon [[(0, 90)]]] 21 ⟨[]⟩ =
      ([], some math_domain_error_message) ∧
    math_domain_error_message ≠ assertion_error_message := by
  constructor
  · have hd : deg2num 0 90 21 = none := deg2num_none_at_90 0 21
    have hr : rect_rings [[((0:ℝ), (90:ℝ))]] = true := rfl
    simp [calculate_inner_coordinates, convert_to_slippy_tile_coords,
      apply_deg2num_axis2, hr, convert_rings, convert_ring, hd]
  · decide

/-- C1 (code slip): `calculate_inner_coordinates_from_csvpath` excludes the
already-computed names from the polygon load (line 197) but rebuilds the name
list from the full CSV (lines 198-199).  Whenever the persistence collaborator
reports one of the CSV's names as already having a computed interior grid, the
two sequences differ in length and the code's own precondition `assert` fails.
Concretely (for every modelled simplification function `sf`): one CSV row
"Springfield, IL" whose interior grid is already computed yields the assertion
error and an empty persistence-call trace, where the claim promises a passing
precondition check. -/
theorem csvpath_assert_failure (sf : GeoCoords → GeoCoords) :
    calculate_inner_coordinates_from_csvpath sf
      [("Springfield", "IL", GeoCoords.polygon [[(0, 0)]])]
      ⟨["Springfield, IL"]⟩ 21 = ([], some assertion_error_message) := by
  rfl

/-- Cross product `(b - a) × (c - a)`: positive iff `c` lies strictly to the
left of the directed line from `a` to `b`. -/
def rat_cross (a b c : ℚ × ℚ) : ℚ :=
  (b.1 - a.1) * (c.2 - a.2) - (b.2 - a.2) * (c.1 - a.1)

/-- Squared Euclidean distance between two rational points. -/
def rat_dist_sq (a b : ℚ × ℚ) : ℚ :=
  (b.1 - a.1) ^ 2 + (b.2 - a.2) ^ 2

/-- Lexicographic insertion (by x, then y), presorting the vertices for the
monotone-chain hull construction. -/
def insort (p : ℚ × ℚ) : List (ℚ × ℚ) → List (ℚ × ℚ)
  | [] => [p]
  | q :: qs =>
    if p.1 < q.1 ∨ (p.1 = q.1 ∧ p.2 ≤ q.2) then p :: q :: qs else q :: insort p qs

def sort_points (l : List (ℚ × ℚ)) : List (ℚ × ℚ) :=
  l.foldr insort []

/-- One step of the monotone-chain construction: push `p`, popping the chain
(kept most-recent-first) while its last two points and `p` fail to make a
strict left turn. -/
def chain_add (p : ℚ × ℚ) : List (ℚ × ℚ) → List (ℚ × ℚ)
  | b :: a :: rest =>
    if rat_cross a b p ≤ 0 then chain_add p (a :: rest) else p :: b :: a :: rest
  | l => p :: l

def half_hull (pts : List (ℚ × ℚ)) : List (ℚ × ℚ) :=
  (pts.foldl (fun ch p => chain_add p ch) []).reverse

/-- Model of shapely `convex_hull` on a vertex list: Andrew's monotone chain —
the lower hull of the sorted points and the upper hull of their reverse,
concatenated without the duplicated chain endpoints. -/
def convex_hull (pts : List (ℚ × ℚ)) : List (ℚ × ℚ) :=
  match sort_points pts with
  | [] => []
  | [p] => [p]
  | s => (half_hull s).dropLast ++ (half_hull s.reverse).dropLast

/-- Best (index, measure) over the interior points of a chord from `a` to `b`,
where the measure of `c` is `rat_cross a b c ^ 2` — the squared perpendicular
distance of `c` to the line through `a` and `b`, scaled by the squared chord
length. -/
def farthest_from (a b : ℚ × ℚ) : List (ℚ × ℚ) → ℕ → ℕ × ℚ
  | [], _ => (0, 0)
  | c :: cs, i =>
    let d := rat_cross a b c ^ 2
    if cs = [] then (i, d)
    else
      let rest := farthest_from a b cs (i + 1)
      if d < rest.2 then rest else (i, d)

/-- Model of shapely `simplify` (Douglas-Peucker, the vertex-reduction used on
line 104): keep the chord endpoints; if the farthest interior point lies
farther than the tolerance from the chord's line, split there and recurse on
both parts, otherwise drop all interior points.  The squared comparison
`tol² * |chord|² < cross²` is `tolerance < perpendicular distance` cleared of
square roots; the recursion is fuelled by the list length. -/
def douglas_peucker_rec : ℕ → List (ℚ × ℚ) → ℚ → List (ℚ × ℚ)
  | 0, pts, _ => pts
  | _ + 1, [], _ => []
  | _ + 1, [p], _ => [p]
  | _ + 1, [p, q], _ => [p, q]
  | fuel + 1, p :: q :: r :: rest, tol =>
    let b := (q :: r :: rest).getLastD p
    let mid := (q :: r :: rest).dropLast
    let f := farthest_from p b mid 0
    if tol ^ 2 * rat_dist_sq p b < f.2 then
      (douglas_peucker_rec fuel (p :: mid.take (f.1 + 1)) tol).dropLast ++
        douglas_peucker_rec fuel (mid.drop f.1 ++ [b]) tol
    else [p, b]

def douglas_peucker (pts : List (ℚ × ℚ)) (tol : ℚ) : List (ℚ × ℚ) :=
  douglas_peucker_rec pts.length pts tol

/-- Model of shapely `buffer` as a region operation: all points within
Euclidean distance `d` of the region — the Minkowski sum with the closed disc
of radius `d`, written in squared form to avoid the square root.  (shapely
returns a fine polygonal approximation of this region inscribed in it; the
region itself is the modelled semantics.) -/
def bufferSet (A : Set (ℝ × ℝ)) (d : ℝ) : Set (ℝ × ℝ) :=
  {x | ∃ a ∈ A, (x.1 - a.1) ^ 2 + (x.2 - a.2) ^ 2 ≤ d ^ 2}

/-- The region enclosed by a convex vertex ring, as a subset of the plane: the
convex hull of its vertices.  (This is exact for the rings handed to it in
`simplify_polygon`, which are produced by the convex-hull step.) -/
def ratPolygonSet (ring : List (ℚ × ℚ)) : Set (ℝ × ℝ) :=
  convexHull ℝ {p : ℝ × ℝ | ∃ q ∈ ring, p = ((q.1 : ℝ), (q.2 : ℝ))}

def simplify_tolerance_default : ℚ := 1 / 1000

def buffer_distance_default : ℚ := 1 / 250

/-- Embedding of `simplify_polygon` (lines 93-104):
`shape(polygon).convex_hull.simplify(simplify_tolerance).buffer(buffer_distance)`
on a polygon given by its vertex ring, the buffered result taken as a region.
The source defaults are `simplify_tolerance=0.001` and `buffer_distance=0.004`
(`simplify_tolerance_default` and `buffer_distance_default`). -/
def simplify_polygon (polygon : List (ℚ × ℚ))
    (simplify_tolerance buffer_distance : ℚ) : Set (ℝ × ℝ) :=
  bufferSet
    (ratPolygonSet (douglas_peucker (convex_hull polygon) simplify_tolerance))
    (buffer_distance : ℝ)

/-- C9: called with its defaults, `simplify_polygon` is exactly the three-step
composition convex hull → Douglas-Peucker simplification within tolerance
`0.001` → buffer by `0.004`, in that order; the buffer step grows the region
outward (the simplified hull is contained in the result); and the embedding is
a pure function of the input ring, which is never mutated. -/
theorem simplify_polygon_composition (polygon : List (ℚ × ℚ)) :
    simplify_polygon polygon simplify_tolerance_default buffer_distance_default =
      bufferSet
        (ratPolygonSet (douglas_peucker (convex_hull polygon) (1 / 1000)))
        ((1 / 250 : ℚ) : ℝ) ∧
    ratPolygonSet (douglas_peucker (convex_hull polygon) simplify_tolerance_default) ⊆
      simplify_polygon polygon simplify_tolerance_default buffer_distance_default := by
  constructor
  · rfl
  · intro x hx
    refine ⟨x, hx, ?_⟩
    simp only [sub_self]
    norm_num
    positivity

theorem convex_bufferSet {A : Set (ℝ × ℝ)} (hA : Convex ℝ A) (d : ℝ) :
    Convex ℝ (bufferSet A d) := by
  intro x hx y hy a b ha hb hab
  obtain ⟨ax, hax, hx2⟩ := hx
  obtain ⟨ay, hay, hy2⟩ := hy
  refine ⟨a • ax + b • ay, hA hax hay ha hb hab, ?_⟩
  have e1 : (a • x + b • y).1 = a * x.1 + b * y.1 := rfl
  have e2 : (a • x + b • y).2 = a * x.2 + b * y.2 := rfl
  have e3 : (a • ax + b • ay).1 = a * ax.1 + b * ay.1 := rfl
  have e4 : (a • ax + b • ay).2 = a * ax.2 + b * ay.2 := rfl
  rw [e1, e2, e3, e4]
  set u1 : ℝ := x.1 - ax.1 with hu1
  set u2 : ℝ := x.2 - ax.2 with hu2
  set v1 : ℝ := y.1 - ay.1 with hv1
  set v2 : ℝ := y.2 - ay.2 with hv2
  have hexp1 : a * x.1 + b * y.1 - (a * ax.1 + b * ay.1) = a * u1 + b * v1 := by
    rw [hu1, hv1]; ring
  have hexp2 : a * x.2 + b * y.2 - (a * ax.2 + b * ay.2) = a * u2 + b * v2 := by
    rw [hu2, hv2]; ring
  rw [hexp1, hexp2]
  have hb' : b = 1 - a := by linarith
  subst hb'
  have h1a : (0:ℝ) ≤ 1 - a := hb
  have key : (a * u1 + (1 - a) * v1) ^ 2 + (a * u2 + (1 - a) * v2) ^ 2 ≤
      a * (u1 ^ 2 + u2 ^ 2) + (1 - a) * (v1 ^ 2 + v2 ^ 2) := by
    nlinarith [mul_nonneg (mul_nonneg ha h1a) (sq_nonneg (u1 - v1)),
      mul_nonneg (mul_nonneg ha h1a) (sq_nonneg (u2 - v2))]
  have hd1 : a * (u1 ^ 2 + u2 ^ 2) ≤ a * d ^ 2 :=
    mul_le_mul_of_nonneg_left hx2 ha
  have hd2 : (1 - a) * (v1 ^ 2 + v2 ^ 2) ≤ (1 - a) * d ^ 2 :=
    mul_le_mul_of_nonneg_left hy2 h1a
  nlinarith [key, hd1, hd2]

/-- C10: the region produced by `simplify_polygon` is convex, for every input
ring and every parameter pair: the hull step produces a convex region, the
Douglas-Peucker step keeps a subset of its vertices (so the region stays the
convex hull of finitely many points), and buffering — a Minkowski sum with a
disc — preserves convexity. -/
theorem simplify_polygon_convex (polygon : List (ℚ × ℚ))
    (simplify_tolerance buffer_distance : ℚ) :
    Convex ℝ (simplify_polygon polygon simplify_tolerance buffer_distance) := by
  unfold simplify_polygon
  exact convex_bufferSet (convex_convexHull ℝ _) _
